import Mathlib

/-!
Verification of the sensitive-field protection subsystem of the SecureBank
repository (src/lib/crypto.ts and the SSN-migration logic of
src/scripts/db-utils.ts).

The TypeScript source delegates its cryptographic core to the Node.js
crypto module; that external primitive is embedded here concretely:
AES-256 (FIPS 197), GCM (NIST SP 800-38D, including the GHASH-based
derivation of the pre-counter block for the 16-byte IV the source uses),
SHA-256 and HMAC-SHA256.  Byte strings are `List Nat` with values < 256.
Node's lenient base64 decoding (invalid characters are skipped, the
url-safe alphabet is accepted), its hex codec and its UTF-8 codec are
modelled explicitly, since several claims hinge on their exact behaviour.

JavaScript exceptions are modelled as `Except CryptoError`; the
constructors correspond to the distinct throw sites actually reachable
in the source (there are no typed error classes in the repository).
-/

/-! ## GF(2^8) arithmetic and the AES S-box -/

def xtime (b : Nat) : Nat := if b < 128 then 2 * b else (2 * b) ^^^ 0x11b

def gf8MulAux : Nat → Nat → Nat → Nat → Nat
  | 0, _, _, acc => acc
  | fuel + 1, a, b, acc =>
      gf8MulAux fuel (xtime a) (b / 2) (if b % 2 = 1 then acc ^^^ a else acc)

def gf8Mul (a b : Nat) : Nat := gf8MulAux 8 a b 0

/-- Multiplicative inverse in GF(2^8): b^254, computed by an addition
chain (254 = 2 + 4 + 8 + 16 + 32 + 64 + 128) to keep reduction shallow. -/
def gf8Inv (b : Nat) : Nat :=
  if b = 0 then 0
  else
    let b2 := gf8Mul b b
    let b4 := gf8Mul b2 b2
    let b8 := gf8Mul b4 b4
    let b16 := gf8Mul b8 b8
    let b32 := gf8Mul b16 b16
    let b64 := gf8Mul b32 b32
    let b128 := gf8Mul b64 b64
    gf8Mul b128 (gf8Mul b64 (gf8Mul b32 (gf8Mul b16 (gf8Mul b8 (gf8Mul b4 b2)))))

def rotl8 (x n : Nat) : Nat := ((x <<< n) ||| (x >>> (8 - n))) &&& 255

/-- The mathematical definition of the AES S-box: multiplicative inverse in
GF(2^8) followed by the affine transformation. -/
def sBoxFun (b : Nat) : Nat :=
  let i := gf8Inv b
  i ^^^ rotl8 i 1 ^^^ rotl8 i 2 ^^^ rotl8 i 3 ^^^ rotl8 i 4 ^^^ 0x63

/-- The AES S-box as a lookup table; proved equal to `sBoxFun` on 0..255
below (`sboxTable_eq_sBoxFun`). -/
def sboxTable : List Nat :=
  [99, 124, 119, 123, 242, 107, 111, 197, 48, 1, 103, 43, 254, 215, 171, 118,
   202, 130, 201, 125, 250, 89, 71, 240, 173, 212, 162, 175, 156, 164, 114, 192,
   183, 253, 147, 38, 54, 63, 247, 204, 52, 165, 229, 241, 113, 216, 49, 21,
   4, 199, 35, 195, 24, 150, 5, 154, 7, 18, 128, 226, 235, 39, 178, 117,
   9, 131, 44, 26, 27, 110, 90, 160, 82, 59, 214, 179, 41, 227, 47, 132,
   83, 209, 0, 237, 32, 252, 177, 91, 106, 203, 190, 57, 74, 76, 88, 207,
   208, 239, 170, 251, 67, 77, 51, 133, 69, 249, 2, 127, 80, 60, 159, 168,
   81, 163, 64, 143, 146, 157, 56, 245, 188, 182, 218, 33, 16, 255, 243, 210,
   205, 12, 19, 236, 95, 151, 68, 23, 196, 167, 126, 61, 100, 93, 25, 115,
   96, 129, 79, 220, 34, 42, 144, 136, 70, 238, 184, 20, 222, 94, 11, 219,
   224, 50, 58, 10, 73, 6, 36, 92, 194, 211, 172, 98, 145, 149, 228, 121,
   231, 200, 55, 109, 141, 213, 78, 169, 108, 86, 244, 234, 101, 122, 174, 8,
   186, 120, 37, 46, 28, 166, 180, 198, 232, 221, 116, 31, 75, 189, 139, 138,
   112, 62, 181, 102, 72, 3, 246, 14, 97, 53, 87, 185, 134, 193, 29, 158,
   225, 248, 152, 17, 105, 217, 142, 148, 155, 30, 135, 233, 206, 85, 40, 223,
   140, 161, 137, 13, 191, 230, 66, 104, 65, 153, 45, 15, 176, 84, 187, 22]

def sbox (b : Nat) : Nat := sboxTable.getD b 0

/-! ## AES-256 block encryption (FIPS 197) -/

def wordXor (a b : List Nat) : List Nat := List.zipWith (· ^^^ ·) a b

def subWord (w : List Nat) : List Nat := w.map sbox

def rotWord : List Nat → List Nat
  | a :: rest => rest ++ [a]
  | [] => []

def rcon : Nat → Nat
  | 0 => 0
  | 1 => 1
  | n + 2 => xtime (rcon (n + 1))

/-- One expansion step of the AES key schedule: word i is the XOR of word
i - 8 with a transform of word i - 1. -/
def aesKeyStep (ws : List (List Nat)) (j : Nat) : List (List Nat) :=
  let i := j + 8
  let prev := ws.getD (i - 1) []
  let t :=
    if i % 8 = 0 then wordXor (subWord (rotWord prev)) [rcon (i / 8), 0, 0, 0]
    else if i % 8 = 4 then subWord prev
    else prev
  ws ++ [wordXor (ws.getD (i - 8) []) t]

/-- AES-256 key schedule: 60 four-byte words from a 32-byte key. -/
def aesKeyWords (key : List Nat) : List (List Nat) :=
  let w0 := (List.range 8).map (fun i => (key.drop (4 * i)).take 4)
  (List.range 52).foldl aesKeyStep w0

def aesRoundKey (ws : List (List Nat)) (r : Nat) : List Nat :=
  ws.getD (4 * r) [] ++ ws.getD (4 * r + 1) [] ++ ws.getD (4 * r + 2) [] ++ ws.getD (4 * r + 3) []

def subBytes (s : List Nat) : List Nat := s.map sbox

/-- ShiftRows on the flat, column-major 16-byte state. -/
def shiftRows (s : List Nat) : List Nat :=
  (List.range 16).map (fun i => s.getD (i % 4 + 4 * ((i / 4 + i % 4) % 4)) 0)

def mixColumn (a : List Nat) : List Nat :=
  let a0 := a.getD 0 0
  let a1 := a.getD 1 0
  let a2 := a.getD 2 0
  let a3 := a.getD 3 0
  [xtime a0 ^^^ (xtime a1 ^^^ a1) ^^^ a2 ^^^ a3,
   a0 ^^^ xtime a1 ^^^ (xtime a2 ^^^ a2) ^^^ a3,
   a0 ^^^ a1 ^^^ xtime a2 ^^^ (xtime a3 ^^^ a3),
   (xtime a0 ^^^ a0) ^^^ a1 ^^^ a2 ^^^ xtime a3]

def mixColumns (s : List Nat) : List Nat :=
  mixColumn (s.take 4) ++ mixColumn ((s.drop 4).take 4) ++
    mixColumn ((s.drop 8).take 4) ++ mixColumn (s.drop 12)

/-- AES-256 encryption of one 16-byte block (14 rounds).  Checked against
the FIPS 197 appendix C.3 test vector (`aes256_fips197_vector` below). -/
def aesEncryptBlock (key block : List Nat) : List Nat :=
  let ws := aesKeyWords key
  let s0 := wordXor block (aesRoundKey ws 0)
  let sMain := (List.range 13).foldl
    (fun s r => wordXor (mixColumns (shiftRows (subBytes s))) (aesRoundKey ws (r + 1))) s0
  wordXor (shiftRows (subBytes sMain)) (aesRoundKey ws 14)

/-! ## GCM (NIST SP 800-38D) -/

def bytesToNatBE (bs : List Nat) : Nat := bs.foldl (fun acc b => acc * 256 + b) 0

def natToBytesBE : Nat → Nat → List Nat
  | 0, _ => []
  | k + 1, n => natToBytesBE k (n / 256) ++ [n % 256]

/-- The GHASH reduction constant R = 0xE1 followed by 120 zero bits. -/
def gcmR : Nat := 0xE1 <<< 120

def gfMul128Aux : Nat → Nat → Nat → Nat → Nat
  | 0, _, _, z => z
  | f + 1, x, v, z =>
      let z2 := if x.testBit f then z ^^^ v else z
      let v2 := if v % 2 = 1 then (v / 2) ^^^ gcmR else v / 2
      gfMul128Aux f x v2 z2

/-- Multiplication in GF(2^128) with GCM's bit ordering; blocks are 128-bit
naturals read big-endian from the 16-byte block. -/
def gfMul128 (x y : Nat) : Nat := gfMul128Aux 128 x y 0

def ghash (h : Nat) (blocks : List Nat) : Nat :=
  blocks.foldl (fun y b => gfMul128 (y ^^^ b) h) 0

def bytesToBlocksAux : Nat → List Nat → List Nat
  | 0, _ => []
  | _, [] => []
  | fuel + 1, b :: rest =>
      let chunk := (b :: rest).take 16
      bytesToNatBE (chunk ++ List.replicate (16 - chunk.length) 0) ::
        bytesToBlocksAux fuel ((b :: rest).drop 16)

/-- Split a byte string into 128-bit blocks, zero-padding the final one.
The list length is ample fuel: every step consumes at least one byte. -/
def bytesToBlocks (bs : List Nat) : List Nat := bytesToBlocksAux bs.length bs

def ghashH (key : List Nat) : Nat := bytesToNatBE (aesEncryptBlock key (List.replicate 16 0))

def lenBlock (aBits cBits : Nat) : Nat := aBits * 2 ^ 64 + cBits

/-- The pre-counter block J0.  The source uses a 16-byte IV, so GCM takes
the GHASH branch; the 12-byte branch is kept for the NIST test vectors. -/
def computeJ0 (key iv : List Nat) : List Nat :=
  if iv.length = 12 then iv ++ [0, 0, 0, 1]
  else natToBytesBE 16 (ghash (ghashH key) (bytesToBlocks iv ++ [lenBlock 0 (iv.length * 8)]))

def incCounter (j0 : List Nat) (k : Nat) : List Nat :=
  j0.take 12 ++ natToBytesBE 4 ((bytesToNatBE (j0.drop 12) + k) % 2 ^ 32)

def keystreamByte (key j0 : List Nat) (i : Nat) : Nat :=
  (aesEncryptBlock key (incCounter j0 (i / 16 + 1))).getD (i % 16) 0 &&& 255

/-- XOR a byte string against a keystream, starting at stream position n. -/
def xorKS (ks : Nat → Nat) : Nat → List Nat → List Nat
  | _, [] => []
  | n, b :: bs => (b ^^^ ks n) :: xorKS ks (n + 1) bs

/-- GCM's CTR transformation: encryption and decryption are the same map. -/
def gcmCtr (key iv data : List Nat) : List Nat :=
  xorKS (keystreamByte key (computeJ0 key iv)) 0 data

/-- The 16-byte GCM authentication tag over a ciphertext (no AAD), as
returned by getAuthTag and checked by setAuthTag + final in the source. -/
def gcmTag (key iv ct : List Nat) : List Nat :=
  let h := ghashH key
  let j0 := computeJ0 key iv
  let s := ghash h (bytesToBlocks ct ++ [lenBlock 0 (ct.length * 8)])
  wordXor (aesEncryptBlock key j0) (natToBytesBE 16 s)

/-! ## SHA-256 and HMAC-SHA256 (FIPS 180-4, RFC 2104) -/

/-- The 64 SHA-256 round constants of FIPS 180-4 section 4.2.2, written
in decimal. -/
def sha256K : List Nat :=
  [1116352408, 1899447441, 3049323471, 3921009573, 961987163, 1508970993,
   2453635748, 2870763221, 3624381080, 310598401, 607225278, 1426881987,
   1925078388, 2162078206, 2614888103, 3248222580, 3835390401, 4022224774,
   264347078, 604807628, 770255983, 1249150122, 1555081692, 1996064986,
   2554220882, 2821834349, 2952996808, 3210313671, 3336571891, 3584528711,
   113926993, 338241895, 666307205, 773529912, 1294757372, 1396182291,
   1695183700, 1986661051, 2177026350, 2456956037, 2730485921, 2820302411,
   3259730800, 3345764771, 3516065817, 3600352804, 4094571909, 275423344,
   430227734, 506948616, 659060556, 883997877, 958139571, 1322822218,
   1537002063, 1747873779, 1955562222, 2024104815, 2227730452, 2361852424,
   2428436474, 2756734187, 3204031479, 3329325298]

def w32 (n : Nat) : Nat := n % 2 ^ 32

def rotr32 (x n : Nat) : Nat := w32 ((x >>> n) ||| (x <<< (32 - n)))

def sha256Pad (msg : List Nat) : List Nat :=
  let L := msg.length
  let padLen := (55 + 64 - L % 64) % 64 + 1
  msg ++ [0x80] ++ List.replicate (padLen - 1) 0 ++ natToBytesBE 8 (L * 8)

/-- One SHA-256 compression round on the 8-word working state. -/
def sha256Round (wfull : List Nat) (st : List Nat) (t : Nat) : List Nat :=
  match st with
  | [a, b, c, d, e, f, g, h] =>
    let bS1 := rotr32 e 6 ^^^ rotr32 e 11 ^^^ rotr32 e 25
    let ch := (e &&& f) ^^^ (((2 ^ 32 - 1) ^^^ e) &&& g)
    let t1 := w32 (h + bS1 + ch + sha256K.getD t 0 + wfull.getD t 0)
    let bS0 := rotr32 a 2 ^^^ rotr32 a 13 ^^^ rotr32 a 22
    let mj := (a &&& b) ^^^ (a &&& c) ^^^ (b &&& c)
    let t2 := w32 (bS0 + mj)
    [w32 (t1 + t2), a, b, c, w32 (d + t1), e, f, g]
  | other => other

def sha256Compress (hs : List Nat) (block : List Nat) : List Nat :=
  let ws0 := (List.range 16).map (fun i => bytesToNatBE ((block.drop (4 * i)).take 4))
  let wfull := (List.range 64).foldl (fun acc t =>
    acc ++ [if t < 16 then ws0.getD t 0
            else
              let s0 := fun x => rotr32 x 7 ^^^ rotr32 x 18 ^^^ (x >>> 3)
              let s1 := fun x => rotr32 x 17 ^^^ rotr32 x 19 ^^^ (x >>> 10)
              w32 (s1 (acc.getD (t - 2) 0) + acc.getD (t - 7) 0 +
                   s0 (acc.getD (t - 15) 0) + acc.getD (t - 16) 0)]) []
  let final := (List.range 64).foldl (sha256Round wfull) hs
  List.zipWith (fun x y => w32 (x + y)) hs final

def chunks64Aux : Nat → List Nat → List (List Nat)
  | 0, _ => []
  | _, [] => []
  | fuel + 1, b :: rest => ((b :: rest).take 64) :: chunks64Aux fuel ((b :: rest).drop 64)

/-- Split a message into 64-byte chunks; the length is ample fuel. -/
def chunks64 (bs : List Nat) : List (List Nat) := chunks64Aux bs.length bs

/-- The initial hash value of FIPS 180-4 section 5.3.3, in decimal. -/
def sha256Init : List Nat :=
  [1779033703, 3144134277, 1013904242, 2773480762,
   1359893119, 2600822924, 528734635, 1541459225]

/-- SHA-256 of a byte string; checked against the FIPS 180-4 test vectors
(`sha256_abc_vector` below). -/
def sha256 (msg : List Nat) : List Nat :=
  ((chunks64 (sha256Pad msg)).foldl sha256Compress sha256Init).foldr
    (fun w acc => natToBytesBE 4 w ++ acc) []

/-- HMAC-SHA256; checked against the RFC 4231 test vector
(`hmac_rfc4231_vector` below). -/
def hmacSha256 (key msg : List Nat) : List Nat :=
  let k0 := if key.length > 64 then (sha256 key ++ List.replicate 32 0).take 64
            else key ++ List.replicate (64 - key.length) 0
  let ipad := k0.map (· ^^^ 0x36)
  let opad := k0.map (· ^^^ 0x5c)
  sha256 (opad ++ sha256 (ipad ++ msg))

/-! ## Base64 (Node Buffer semantics)

Buffer.from(str, 'base64') is lenient: characters outside the base64
alphabets are skipped (padding included), the url-safe alphabet is
accepted alongside the standard one, and a trailing group of 2 or 3
sextets contributes 1 or 2 bytes (a single leftover sextet contributes
nothing).  toString('base64') emits the standard alphabet with padding. -/

def b64Alphabet : List Char :=
  "ABCDEFGHIJKLMNOPQRSTUVWXYZabcdefghijklmnopqrstuvwxyz0123456789+/".data

def b64Char (v : Nat) : Char := b64Alphabet.getD v 'A'

def b64CharVal (c : Char) : Option Nat :=
  let n := c.toNat
  if 65 ≤ n ∧ n ≤ 90 then some (n - 65)
  else if 97 ≤ n ∧ n ≤ 122 then some (n - 71)
  else if 48 ≤ n ∧ n ≤ 57 then some (n + 4)
  else if n = 43 ∨ n = 45 then some 62
  else if n = 47 ∨ n = 95 then some 63
  else none

def b64GroupsToBytes : List Nat → List Nat
  | v1 :: v2 :: v3 :: v4 :: rest =>
      (v1 * 4 + v2 / 16) :: ((v2 % 16) * 16 + v3 / 4) :: ((v3 % 4) * 64 + v4) ::
        b64GroupsToBytes rest
  | [v1, v2, v3] => [v1 * 4 + v2 / 16, (v2 % 16) * 16 + v3 / 4]
  | [v1, v2] => [v1 * 4 + v2 / 16]
  | _ => []

/-- Buffer.from(s, 'base64'). -/
def bufferFromBase64 (s : String) : List Nat :=
  b64GroupsToBytes (s.data.filterMap b64CharVal)

def b64EncodeChunks : List Nat → List Char
  | b1 :: b2 :: b3 :: rest =>
      b64Char (b1 / 4) :: b64Char ((b1 % 4) * 16 + b2 / 16) ::
        b64Char ((b2 % 16) * 4 + b3 / 64) :: b64Char (b3 % 64) :: b64EncodeChunks rest
  | [b1, b2] => [b64Char (b1 / 4), b64Char ((b1 % 4) * 16 + b2 / 16), b64Char ((b2 % 16) * 4), '=']
  | [b1] => [b64Char (b1 / 4), b64Char ((b1 % 4) * 16), '=', '=']
  | [] => []

/-- buf.toString('base64'). -/
def bufferToBase64 (bs : List Nat) : String := String.mk (b64EncodeChunks bs)

/-- The sextet sequence of a byte string: what filterMap b64CharVal
recovers from its standard base64 encoding. -/
def b64ValsOfBytes : List Nat → List Nat
  | b1 :: b2 :: b3 :: rest =>
      b1 / 4 :: ((b1 % 4) * 16 + b2 / 16) :: ((b2 % 16) * 4 + b3 / 64) :: b3 % 64 ::
        b64ValsOfBytes rest
  | [b1, b2] => [b1 / 4, (b1 % 4) * 16 + b2 / 16, (b2 % 16) * 4]
  | [b1] => [b1 / 4, (b1 % 4) * 16]
  | [] => []

/-! ## Hex (Node Buffer semantics) -/

def hexDigitChar (n : Nat) : Char := if n < 10 then Char.ofNat (48 + n) else Char.ofNat (87 + n)

def bytesToHexChars : List Nat → List Char
  | [] => []
  | b :: bs => hexDigitChar (b / 16) :: hexDigitChar (b % 16) :: bytesToHexChars bs

/-- buf.toString('hex'), as produced by cipher.update(..., 'hex'). -/
def bytesToHex (bs : List Nat) : String := String.mk (bytesToHexChars bs)

def hexCharVal (c : Char) : Option Nat :=
  let n := c.toNat
  if 48 ≤ n ∧ n ≤ 57 then some (n - 48)
  else if 97 ≤ n ∧ n ≤ 102 then some (n - 87)
  else if 65 ≤ n ∧ n ≤ 70 then some (n - 55)
  else none

def hexPairsToBytes : List Char → List Nat
  | c1 :: c2 :: rest =>
      match hexCharVal c1, hexCharVal c2 with
      | some h1, some h2 => (h1 * 16 + h2) :: hexPairsToBytes rest
      | _, _ => []
  | _ => []

/-- Buffer.from(s, 'hex') (decoding stops at an invalid or incomplete pair). -/
def hexToBytes (s : String) : List Nat := hexPairsToBytes s.data

/-! ## UTF-8 (Node Buffer semantics)

Buffer.from(s, 'utf8') encodes; toString('utf8') decodes, never throws,
and substitutes U+FFFD for invalid sequences. -/

def utf8EncodeChar (c : Char) : List Nat :=
  let v := c.toNat
  if v < 0x80 then [v]
  else if v < 0x800 then [0xC0 + v / 64, 0x80 + v % 64]
  else if v < 0x10000 then [0xE0 + v / 4096, 0x80 + v / 64 % 64, 0x80 + v % 64]
  else [0xF0 + v / 262144, 0x80 + v / 4096 % 64, 0x80 + v / 64 % 64, 0x80 + v % 64]

def utf8EncodeList : List Char → List Nat
  | [] => []
  | c :: cs => utf8EncodeChar c ++ utf8EncodeList cs

/-- Buffer.from(s, 'utf8'). -/
def utf8Encode (s : String) : List Nat := utf8EncodeList s.data

def replChar : Char := Char.ofNat 0xFFFD

def isContByte (b : Nat) : Prop := 0x80 ≤ b ∧ b < 0xC0

instance (b : Nat) : Decidable (isContByte b) := by unfold isContByte; infer_instance

def utf8DecodeAux : Nat → List Nat → List Char
  | 0, _ => []
  | _ + 1, [] => []
  | fuel + 1, b1 :: bs =>
      if b1 < 0x80 then Char.ofNat b1 :: utf8DecodeAux fuel bs
      else if b1 < 0xC2 then replChar :: utf8DecodeAux fuel bs
      else if b1 < 0xE0 then
        if 1 ≤ bs.length ∧ isContByte (bs.getD 0 0) then
          Char.ofNat ((b1 - 0xC0) * 64 + (bs.getD 0 0 - 0x80)) :: utf8DecodeAux fuel (bs.drop 1)
        else replChar :: utf8DecodeAux fuel bs
      else if b1 < 0xF0 then
        if 2 ≤ bs.length ∧ isContByte (bs.getD 0 0) ∧ isContByte (bs.getD 1 0) ∧
            (b1 = 0xE0 → 0xA0 ≤ bs.getD 0 0) ∧ (b1 = 0xED → bs.getD 0 0 < 0xA0) then
          Char.ofNat ((b1 - 0xE0) * 4096 + (bs.getD 0 0 - 0x80) * 64 + (bs.getD 1 0 - 0x80)) ::
            utf8DecodeAux fuel (bs.drop 2)
        else replChar :: utf8DecodeAux fuel bs
      else if b1 < 0xF5 then
        if 3 ≤ bs.length ∧ isContByte (bs.getD 0 0) ∧ isContByte (bs.getD 1 0) ∧
            isContByte (bs.getD 2 0) ∧ (b1 = 0xF0 → 0x90 ≤ bs.getD 0 0) ∧
            (b1 = 0xF4 → bs.getD 0 0 < 0x90) then
          Char.ofNat ((b1 - 0xF0) * 262144 + (bs.getD 0 0 - 0x80) * 4096 +
              (bs.getD 1 0 - 0x80) * 64 + (bs.getD 2 0 - 0x80)) :: utf8DecodeAux fuel (bs.drop 3)
        else replChar :: utf8DecodeAux fuel bs
      else replChar :: utf8DecodeAux fuel bs

/-- Decoding a byte string: a valid lead byte consumes its continuation
bytes (with the WHATWG overlong/surrogate checks); anything invalid
yields U+FFFD and resynchronises after the offending byte.  The byte
count is ample fuel: every emitted character consumes at least one byte. -/
def utf8DecodeList (bs : List Nat) : List Char := utf8DecodeAux bs.length bs

/-- buf.toString('utf8'). -/
def utf8DecodeStr (bs : List Nat) : String := String.mk (utf8DecodeList bs)

/-! ## src/lib/crypto.ts — encryption module

The module reads process.env.ENCRYPTION_KEY; the absent/empty case falls
back to scryptSync('dev-key-for-testing-only', 'salt', 32).  scrypt is an
external derivation whose output value no claim depends on, so the
fallback key bytes are a parameter `devKey` threaded through the
definitions.  The fresh random nonce crypto.randomBytes(16) is likewise a
parameter `iv`.  JavaScript exceptions become `Except CryptoError`, one
constructor per reachable throw site of the Node crypto module:
createCipheriv/createDecipheriv reject an empty IV (in InitIv, before
the key is inspected) and then a key that is not 32 bytes, setAuthTag
rejects tag lengths outside 4, 8, 12..16 for GCM, and decipher.final
throws when the tag does not verify. -/

inductive CryptoError where
  | invalidKeyLength
  | invalidIV
  | invalidAuthTagLength
  | authFailed
  | missingHmacKey
  deriving DecidableEq, Repr

/-- getEncryptionKey from src/lib/crypto.ts: a set, non-empty
ENCRYPTION_KEY is base64-decoded (with no validation of any kind);
otherwise the scrypt development key (`devKey`) is returned. -/
def getEncryptionKey (devKey : List Nat) (env : Option String) : List Nat :=
  match env with
  | some envKey => if envKey ≠ "" then bufferFromBase64 envKey else devKey
  | none => devKey

/-- Tag lengths accepted by setAuthTag for GCM without an explicit
authTagLength option. -/
def validAuthTagLength (n : Nat) : Bool :=
  n == 16 || n == 15 || n == 14 || n == 13 || n == 12 || n == 8 || n == 4

/-- encryptSensitiveData from src/lib/crypto.ts: AES-256-GCM over the
UTF-8 bytes of the plaintext (through the hex round-trip the source
performs), then base64 of iv ‖ ciphertext ‖ tag. -/
def encryptSensitiveData (devKey : List Nat) (env : Option String) (iv : List Nat)
    (plaintext : String) : Except CryptoError String :=
  let key := getEncryptionKey devKey env
  if iv.length = 0 then .error .invalidIV
  else if key.length ≠ 32 then .error .invalidKeyLength
  else
    let encryptedHex := bytesToHex (gcmCtr key iv (utf8Encode plaintext))
    let ctBytes := hexToBytes encryptedHex
    let tag := gcmTag key iv ctBytes
    .ok (bufferToBase64 (iv ++ ctBytes ++ tag))

/-- decryptSensitiveData from src/lib/crypto.ts: lenient base64 decode,
slice off iv = combined[0..16) and tag = combined[-16..], authenticate,
CTR-decrypt, decode as UTF-8.  The subarray clamping of Node Buffers is
reproduced by List.take/List.drop arithmetic on Nat. -/
def decryptSensitiveData (devKey : List Nat) (env : Option String)
    (encryptedData : String) : Except CryptoError String :=
  let key := getEncryptionKey devKey env
  let combined := bufferFromBase64 encryptedData
  let iv := combined.take 16
  let tag := combined.drop (combined.length - 16)
  let encrypted := (combined.take (combined.length - 16)).drop 16
  if iv.length = 0 then .error .invalidIV
  else if key.length ≠ 32 then .error .invalidKeyLength
  else if ¬ validAuthTagLength tag.length then .error .invalidAuthTagLength
  else if gcmTag key iv encrypted ≠ tag then .error .authFailed
  else .ok (utf8DecodeStr (gcmCtr key iv encrypted))

/-! ## src/lib/crypto.ts — lookup module

The second module reads SSN_HMAC_KEY at load time and throws if it is
unset (or empty, which is falsy in JavaScript); ssnLookupHash and
ssnLast4 are only reachable once that check has passed. -/

/-- The module-level HMAC_KEY check: throws unless SSN_HMAC_KEY is set
and non-empty; the resolved key is exactly the configured string. -/
def resolveHmacKey (env : Option String) : Except CryptoError String :=
  match env with
  | some k => if k ≠ "" then .ok k else .error .missingHmacKey
  | none => .error .missingHmacKey

/-- ssnLookupHash from src/lib/crypto.ts: HMAC-SHA256 of the SSN under
the UTF-8 bytes of the configured key, hex-encoded. -/
def ssnLookupHash (hmacKey : String) (ssn : String) : String :=
  bytesToHex (hmacSha256 (utf8Encode hmacKey) (utf8Encode ssn))

/-- The observable behaviour of the lookup facility as a function of the
environment: module load (the HMAC_KEY check) composed with
ssnLookupHash. -/
def lookupDigestWithEnv (env : Option String) (ssn : String) : Except CryptoError String :=
  (resolveHmacKey env).map (fun k => ssnLookupHash k ssn)

/-- ssnLast4 from src/lib/crypto.ts: ssn.replace(/\D/g, "").slice(-4). -/
def ssnLast4 (ssn : String) : String :=
  let digits := ssn.data.filter Char.isDigit
  String.mk (digits.drop (digits.length - 4))

/-! ## src/scripts/db-utils.ts — SSN migration -/

structure UserRow where
  id : Nat
  email : String
  first_name : String
  last_name : String
  ssn : Option String
  deriving DecidableEq, Repr

/-- The regular expression test /^\d{9}$/.test(v). -/
def isNineDigitSSN (v : String) : Bool :=
  v.data.length == 9 && v.data.all Char.isDigit

/-- isPlaintextSSN from src/scripts/db-utils.ts: no ssn field means no
migration; a value that decrypts successfully is already encrypted; on
decryption failure the raw nine-digit pattern decides. -/
def isPlaintextSSN (devKey : List Nat) (env : Option String) (ssn : Option String) : Bool :=
  match ssn with
  | none => false
  | some v =>
      match decryptSensitiveData devKey env v with
      | .ok _ => false
      | .error _ => isNineDigitSSN v

/-- The console.warn branch of isPlaintextSSN: reached exactly when
decryption fails and the value does not match the nine-digit pattern. -/
def migrationWarns (devKey : List Nat) (env : Option String) (ssn : Option String) : Bool :=
  match ssn with
  | none => false
  | some v =>
      match decryptSensitiveData devKey env v with
      | .ok _ => false
      | .error _ => !isNineDigitSSN v

/-- The per-row action of performSSNMigration from src/scripts/db-utils.ts:
a row whose ssn is truthy and classified as plaintext has its ssn column
replaced by encryptSensitiveData(ssn); every other row is left unchanged. -/
def migrateUser (devKey : List Nat) (env : Option String) (iv : List Nat)
    (u : UserRow) : Except CryptoError UserRow :=
  match u.ssn with
  | some v =>
      if v ≠ "" && isPlaintextSSN devKey env (some v) then
        (encryptSensitiveData devKey env iv v).map (fun e => { u with ssn := some e })
      else .ok u
  | none => .ok u

/-! ## Auxiliary definitions used in the statements below -/

/-- A well-formed byte string: every element is below 256.  Buffers
produced by Node always satisfy this; it is a stated hypothesis wherever
a byte-string parameter (the random IV, the scrypt fallback key) is
universally quantified. -/
def ByteList (bs : List Nat) : Prop := ∀ b ∈ bs, b < 256

instance (bs : List Nat) : Decidable (ByteList bs) := by unfold ByteList; infer_instance

/-- The final character of a string (JavaScript s[s.length - 1]). -/
def lastChar (s : String) : Char := s.data.getLastD 'A'

/-- Replace the single character in the final position of a string. -/
def replaceLastChar (s : String) (c : Char) : String := String.mk (s.data.dropLast ++ [c])

/-- A fixed test configuration value: 43 times 'A', which base64-decodes
to a 32-byte (all-zero) encryption key. -/
def testKeyB64 : String := String.mk (List.replicate 43 'A')

/-- A fixed 16-byte nonce standing for one crypto.randomBytes(16) draw. -/
def testIV : List Nat := List.replicate 16 0

/-- The blob encryptSensitiveData produces for "" under `testKeyB64` and
`testIV` (32 decoded bytes, so the base64 text ends in a padding '='). -/
def cexBlob : String := "AAAAAAAAAAAAAAAAAAAAAIMSNXohEeozsbZ+sv4F/oY="

/-- The blob encryptSensitiveData produces for "1" under `testKeyB64` and
`testIV` (33 decoded bytes, so the base64 text has no padding). -/
def wBlob : String := "AAAAAAAAAAAAAAAAAAAAAO5Dw2tckrTIoGnH7nup/sFe"

/-! ## Validation of the embedded primitives against published vectors -/

set_option maxRecDepth 40000

/-- The S-box table is the table of the mathematical S-box definition. -/
theorem sboxTable_eq_sBoxFun : sboxTable = (List.range 256).map sBoxFun := by decide

/-- FIPS 197 appendix C.3: AES-256 of 00112233445566778899aabbccddeeff
under key 000102...1f. -/
theorem aes256_fips197_vector :
    aesEncryptBlock (List.range 32) ((List.range 16).map (· * 17)) =
      [0x8e, 0xa2, 0xb7, 0xca, 0x51, 0x67, 0x45, 0xbf,
       0xea, 0xfc, 0x49, 0x90, 0x4b, 0x49, 0x60, 0x89] := by decide

/-- FIPS 180-4: SHA-256 of "abc". -/
theorem sha256_abc_vector :
    sha256 [0x61, 0x62, 0x63] =
      [0xba, 0x78, 0x16, 0xbf, 0x8f, 0x01, 0xcf, 0xea, 0x41, 0x41, 0x40, 0xde,
       0x5d, 0xae, 0x22, 0x23, 0xb0, 0x03, 0x61, 0xa3, 0x96, 0x17, 0x7a, 0x9c,
       0xb4, 0x10, 0xff, 0x61, 0xf2, 0x00, 0x15, 0xad] := by decide

/-- RFC 4231 test case 2: HMAC-SHA256 with key "Jefe" and message
"what do ya want for nothing?". -/
theorem hmac_rfc4231_vector :
    bytesToHex (hmacSha256 (utf8Encode "Jefe") (utf8Encode "what do ya want for nothing?")) =
      "5bdcc146bf60754e6a042426089575c75a003f089d2739839dec58b964ec3843" := by decide

deriving instance DecidableEq for Except

/-! ## Byte-string bounds and lengths for the AES/GCM pipeline -/

theorem getD_mem_of_lt {α : Type} : ∀ (l : List α) (i : Nat) (d : α), i < l.length → l.getD i d ∈ l
  | a :: _, 0, _, _ => List.mem_cons_self a _
  | _ :: l, i + 1, d, h =>
      List.mem_cons_of_mem _ (getD_mem_of_lt l i d (by simpa using h))

theorem getD_lt_256 : ∀ (l : List Nat) (i : Nat) (d : Nat),
    ByteList l → d < 256 → l.getD i d < 256
  | [], i, _, _, hd => by simp [List.getD_eq_getElem?_getD]; omega
  | a :: _, 0, _, hl, _ => by simpa using hl a (List.mem_cons_self a _)
  | _ :: l, i + 1, d, hl, hd =>
      getD_lt_256 l i d (fun x hx => hl x (List.mem_cons_of_mem _ hx)) hd

theorem xtime_lt (b : Nat) (h : b < 256) : xtime b < 256 := by
  have : ∀ x < 256, xtime x < 256 := by decide
  exact this b h

theorem rcon_lt : ∀ n, rcon n < 256
  | 0 => by decide
  | 1 => by decide
  | n + 2 => xtime_lt _ (rcon_lt (n + 1))

theorem sboxTable_all_lt : ByteList sboxTable := by decide

theorem sbox_lt (b : Nat) : sbox b < 256 :=
  getD_lt_256 _ _ _ sboxTable_all_lt (by omega)

theorem wordXor_length (a b : List Nat) : (wordXor a b).length = min a.length b.length := by
  simp [wordXor]

theorem wordXor_byteList : ∀ (a b : List Nat), ByteList a → ByteList b → ByteList (wordXor a b)
  | [], _, _, _ => by intro x hx; simp [wordXor] at hx
  | _ :: _, [], _, _ => by intro x hx; simp [wordXor] at hx
  | a :: as, b :: bs, ha, hb => by
      intro x hx
      simp only [wordXor, List.zipWith_cons_cons, List.mem_cons] at hx
      rcases hx with h | h
      · subst h
        exact Nat.xor_lt_two_pow (n := 8) (ha a (List.mem_cons_self a _))
          (hb b (List.mem_cons_self b _))
      · exact wordXor_byteList as bs
          (fun x hx => ha x (List.mem_cons_of_mem _ hx))
          (fun x hx => hb x (List.mem_cons_of_mem _ hx)) x h

theorem subWord_length (w : List Nat) : (subWord w).length = w.length := by simp [subWord]

theorem subWord_byteList (w : List Nat) : ByteList (subWord w) := by
  intro x hx
  simp only [subWord, List.mem_map] at hx
  obtain ⟨b, _, rfl⟩ := hx
  exact sbox_lt b

theorem natToBytesBE_length : ∀ (k n : Nat), (natToBytesBE k n).length = k
  | 0, _ => rfl
  | k + 1, n => by simp [natToBytesBE, natToBytesBE_length k]

theorem natToBytesBE_byteList : ∀ (k n : Nat), ByteList (natToBytesBE k n)
  | 0, _ => by intro x hx; simp [natToBytesBE] at hx
  | k + 1, n => by
      intro x hx
      simp only [natToBytesBE, List.mem_append, List.mem_singleton] at hx
      rcases hx with h | h
      · exact natToBytesBE_byteList k (n / 256) x h
      · subst h; exact Nat.mod_lt _ (by omega)

/-- Invariant of the words list: every word is 4 bounded bytes. -/
def GoodWords (ws : List (List Nat)) : Prop :=
  ∀ w ∈ ws, w.length = 4 ∧ ByteList w

theorem rotWord_goodWord (w : List Nat) (h : w.length = 4 ∧ ByteList w) :
    (rotWord w).length = 4 ∧ ByteList (rotWord w) := by
  obtain ⟨hl, hb⟩ := h
  cases w with
  | nil => simp at hl
  | cons a rest =>
      constructor
      · simp [rotWord]; simp at hl; omega
      · intro x hx
        simp only [rotWord, List.mem_append, List.mem_singleton] at hx
        rcases hx with h | h
        · exact hb x (List.mem_cons_of_mem _ h)
        · subst h; exact hb _ (List.mem_cons_self _ _)

theorem subWord_goodWord (w : List Nat) (h : w.length = 4 ∧ ByteList w) :
    (subWord w).length = 4 ∧ ByteList (subWord w) :=
  ⟨by rw [subWord_length]; exact h.1, subWord_byteList w⟩

theorem wordXor_goodWord (a b : List Nat) (ha : a.length = 4 ∧ ByteList a)
    (hb : b.length = 4 ∧ ByteList b) :
    (wordXor a b).length = 4 ∧ ByteList (wordXor a b) :=
  ⟨by rw [wordXor_length, ha.1, hb.1]; rfl, wordXor_byteList a b ha.2 hb.2⟩

theorem aesKeyStep_length (ws : List (List Nat)) (j : Nat) :
    (aesKeyStep ws j).length = ws.length + 1 := by
  simp [aesKeyStep]

theorem aesKeyStep_inv (ws : List (List Nat)) (j : Nat)
    (hlen : ws.length = j + 8) (hg : GoodWords ws) :
    GoodWords (aesKeyStep ws j) := by
  unfold aesKeyStep
  intro w hw
  simp only [List.mem_append, List.mem_singleton] at hw
  rcases hw with h | h
  · exact hg w h
  · subst h
    have hprev : (ws.getD (j + 8 - 1) []).length = 4 ∧ ByteList (ws.getD (j + 8 - 1) []) :=
      hg _ (getD_mem_of_lt ws (j + 8 - 1) [] (by omega))
    have hw8 : (ws.getD (j + 8 - 8) []).length = 4 ∧ ByteList (ws.getD (j + 8 - 8) []) :=
      hg _ (getD_mem_of_lt ws (j + 8 - 8) [] (by omega))
    refine wordXor_goodWord _ _ hw8 ?_
    split
    · refine wordXor_goodWord _ _ (subWord_goodWord _ (rotWord_goodWord _ hprev)) ?_
      refine ⟨rfl, ?_⟩
      intro x hx
      simp only [List.mem_cons, List.not_mem_nil, or_false] at hx
      rcases hx with h | h | h | h <;> subst h
      · exact rcon_lt _
      all_goals omega
    · split
      · exact subWord_goodWord _ hprev
      · exact hprev

theorem aesKeyExp_inv (n : Nat) : ∀ (s : Nat) (ws : List (List Nat)),
    ws.length = s + 8 → GoodWords ws →
    ((List.range' s n).foldl aesKeyStep ws).length = s + 8 + n ∧
      GoodWords ((List.range' s n).foldl aesKeyStep ws) := by
  induction n with
  | zero =>
      intro s ws hl hg
      simp only [List.range'_zero, List.foldl_nil, Nat.add_zero]
      exact ⟨hl, hg⟩
  | succ n ih =>
      intro s ws hl hg
      have hstep := ih (s + 1) (aesKeyStep ws s)
        (by rw [aesKeyStep_length, hl]) (aesKeyStep_inv ws s hl hg)
      rw [List.range'_succ, List.foldl_cons]
      exact ⟨by rw [hstep.1]; omega, hstep.2⟩

theorem aesKeyWords_inv (key : List Nat) (hk : key.length = 32) (hkB : ByteList key) :
    (aesKeyWords key).length = 60 ∧ GoodWords (aesKeyWords key) := by
  have hw0len : ((List.range 8).map (fun i => (key.drop (4 * i)).take 4)).length = 8 := by simp
  have hw0good : GoodWords ((List.range 8).map (fun i => (key.drop (4 * i)).take 4)) := by
    intro w hw
    simp only [List.mem_map, List.mem_range] at hw
    obtain ⟨i, hi, rfl⟩ := hw
    constructor
    · simp [hk]; omega
    · intro x hx
      exact hkB x (List.drop_subset _ _ (List.take_subset _ _ hx))
  have := aesKeyExp_inv 52 0 _ (by simpa using hw0len) hw0good
  rw [aesKeyWords, show List.range 52 = List.range' 0 52 from List.range_eq_range' 52]
  exact ⟨by rw [this.1], this.2⟩

theorem aesRoundKey_length (ws : List (List Nat)) (r : Nat)
    (hlen : ws.length = 60) (hg : GoodWords ws) (hr : r ≤ 14) :
    (aesRoundKey ws r).length = 16 := by
  have h1 := (hg _ (getD_mem_of_lt ws (4 * r) [] (by omega))).1
  have h2 := (hg _ (getD_mem_of_lt ws (4 * r + 1) [] (by omega))).1
  have h3 := (hg _ (getD_mem_of_lt ws (4 * r + 2) [] (by omega))).1
  have h4 := (hg _ (getD_mem_of_lt ws (4 * r + 3) [] (by omega))).1
  unfold aesRoundKey
  rw [List.length_append, List.length_append, List.length_append, h1, h2, h3, h4]

theorem aesRoundKey_byteList (ws : List (List Nat)) (r : Nat) (hg : GoodWords ws) :
    ByteList (aesRoundKey ws r) := by
  intro x hx
  simp only [aesRoundKey, List.mem_append] at hx
  have grab : ∀ i, x ∈ ws.getD i [] → x < 256 := by
    intro i hxi
    by_cases h : i < ws.length
    · exact (hg _ (getD_mem_of_lt ws i [] h)).2 x hxi
    · rw [List.getD_eq_default] at hxi
      · simp at hxi
      · omega
  rcases hx with ((h | h) | h) | h
  · exact grab _ h
  · exact grab _ h
  · exact grab _ h
  · exact grab _ h

theorem shiftRows_length (s : List Nat) : (shiftRows s).length = 16 := by simp [shiftRows]

theorem shiftRows_byteList (s : List Nat) (hs : ByteList s) : ByteList (shiftRows s) := by
  intro x hx
  simp only [shiftRows, List.mem_map, List.mem_range] at hx
  obtain ⟨i, _, rfl⟩ := hx
  exact getD_lt_256 _ _ _ hs (by omega)

theorem subBytes_byteList (s : List Nat) : ByteList (subBytes s) := by
  intro x hx
  simp only [subBytes, List.mem_map] at hx
  obtain ⟨b, _, rfl⟩ := hx
  exact sbox_lt b

theorem aesEncryptBlock_length (key block : List Nat)
    (hk : key.length = 32) (hkB : ByteList key) :
    (aesEncryptBlock key block).length = 16 := by
  obtain ⟨hl, hg⟩ := aesKeyWords_inv key hk hkB
  rw [aesEncryptBlock, wordXor_length, shiftRows_length,
    aesRoundKey_length _ _ hl hg (by omega)]
  simp

theorem aesEncryptBlock_byteList (key block : List Nat)
    (hk : key.length = 32) (hkB : ByteList key) :
    ByteList (aesEncryptBlock key block) := by
  obtain ⟨hl, hg⟩ := aesKeyWords_inv key hk hkB
  exact wordXor_byteList _ _ (shiftRows_byteList _ (subBytes_byteList _))
    (aesRoundKey_byteList _ _ hg)

theorem keystreamByte_lt (key j0 : List Nat) (i : Nat) : keystreamByte key j0 i < 256 := by
  have : keystreamByte key j0 i ≤ 255 := Nat.and_le_right
  omega

theorem xorKS_length (ks : Nat → Nat) : ∀ (n : Nat) (bs : List Nat),
    (xorKS ks n bs).length = bs.length
  | _, [] => rfl
  | n, _ :: bs => by simp [xorKS, xorKS_length ks (n + 1) bs]

theorem xorKS_involution (ks : Nat → Nat) : ∀ (n : Nat) (bs : List Nat),
    xorKS ks n (xorKS ks n bs) = bs
  | _, [] => rfl
  | n, b :: bs => by
      simp [xorKS, xorKS_involution ks (n + 1) bs, Nat.xor_assoc]

theorem xorKS_byteList (ks : Nat → Nat) (hks : ∀ i, ks i < 256) :
    ∀ (n : Nat) (bs : List Nat), ByteList bs → ByteList (xorKS ks n bs)
  | _, [], _ => by intro x hx; simp [xorKS] at hx
  | n, b :: bs, hb => by
      intro x hx
      simp only [xorKS, List.mem_cons] at hx
      rcases hx with h | h
      · subst h
        exact Nat.xor_lt_two_pow (n := 8) (hb b (List.mem_cons_self _ _)) (hks n)
      · exact xorKS_byteList ks hks (n + 1) bs
          (fun y hy => hb y (List.mem_cons_of_mem _ hy)) x h

theorem gcmCtr_length (key iv data : List Nat) : (gcmCtr key iv data).length = data.length :=
  xorKS_length _ 0 data

theorem gcmCtr_involution (key iv data : List Nat) :
    gcmCtr key iv (gcmCtr key iv data) = data :=
  xorKS_involution _ 0 data

theorem gcmCtr_byteList (key iv data : List Nat) (hd : ByteList data) :
    ByteList (gcmCtr key iv data) :=
  xorKS_byteList _ (fun i => keystreamByte_lt key _ i) 0 data hd

theorem gcmTag_length (key iv ct : List Nat) (hk : key.length = 32) (hkB : ByteList key) :
    (gcmTag key iv ct).length = 16 := by
  rw [gcmTag, wordXor_length, aesEncryptBlock_length _ _ hk hkB, natToBytesBE_length]
  simp

theorem gcmTag_byteList (key iv ct : List Nat) (hk : key.length = 32) (hkB : ByteList key) :
    ByteList (gcmTag key iv ct) :=
  wordXor_byteList _ _ (aesEncryptBlock_byteList _ _ hk hkB) (natToBytesBE_byteList _ _)

/-! ## Hex codec -/

theorem hexCharVal_hexDigitChar : ∀ v < 16, hexCharVal (hexDigitChar v) = some v := by decide

theorem hexToBytes_bytesToHex (bs : List Nat) (h : ByteList bs) :
    hexToBytes (bytesToHex bs) = bs := by
  rw [bytesToHex, hexToBytes]
  show hexPairsToBytes (bytesToHexChars bs) = bs
  induction bs with
  | nil => rfl
  | cons b bs ih =>
      have hb : b < 256 := h b (List.mem_cons_self _ _)
      have h1 : hexCharVal (hexDigitChar (b / 16)) = some (b / 16) :=
        hexCharVal_hexDigitChar _ (by omega)
      have h2 : hexCharVal (hexDigitChar (b % 16)) = some (b % 16) :=
        hexCharVal_hexDigitChar _ (by omega)
      have hsplit : b / 16 * 16 + b % 16 = b := by omega
      rw [bytesToHexChars, hexPairsToBytes, h1, h2,
        ih (fun x hx => h x (List.mem_cons_of_mem _ hx))]
      show (b / 16 * 16 + b % 16) :: bs = b :: bs
      rw [hsplit]

theorem bytesToHex_data (bs : List Nat) : (bytesToHex bs).data = bytesToHexChars bs := rfl

/-! ## Base64 codec -/

theorem b64CharVal_b64Char : ∀ v < 64, b64CharVal (b64Char v) = some v := by decide

theorem b64CharVal_pad : b64CharVal '=' = none := by decide

theorem b64CharVal_lt (c : Char) (v : Nat) (h : b64CharVal c = some v) : v < 64 := by
  simp only [b64CharVal] at h
  split at h
  · injection h with h; omega
  · split at h
    · injection h with h; omega
    · split at h
      · injection h with h; omega
      · split at h
        · injection h with h; omega
        · split at h
          · injection h with h; omega
          · exact absurd h (by simp)

theorem b64Vals_encode : ∀ (bs : List Nat), ByteList bs →
    (b64EncodeChunks bs).filterMap b64CharVal = b64ValsOfBytes bs := by
  intro bs h
  induction bs using b64EncodeChunks.induct with
  | case1 b1 b2 b3 rest ih =>
      have hb1 : b1 < 256 := h b1 (by simp)
      have hb2 : b2 < 256 := h b2 (by simp)
      have hb3 : b3 < 256 := h b3 (by simp)
      rw [b64EncodeChunks, b64ValsOfBytes]
      rw [List.filterMap_cons, List.filterMap_cons, List.filterMap_cons, List.filterMap_cons]
      rw [b64CharVal_b64Char _ (by omega), b64CharVal_b64Char _ (by omega),
        b64CharVal_b64Char _ (by omega), b64CharVal_b64Char _ (by omega)]
      rw [ih (fun x hx => h x (by simp [hx]))]
  | case2 b1 b2 =>
      have hb1 : b1 < 256 := h b1 (by simp)
      have hb2 : b2 < 256 := h b2 (by simp)
      rw [b64EncodeChunks, b64ValsOfBytes]
      rw [List.filterMap_cons, List.filterMap_cons, List.filterMap_cons, List.filterMap_cons]
      rw [b64CharVal_b64Char _ (by omega), b64CharVal_b64Char _ (by omega),
        b64CharVal_b64Char _ (by omega)]
      rfl
  | case3 b1 =>
      have hb1 : b1 < 256 := h b1 (by simp)
      rw [b64EncodeChunks, b64ValsOfBytes]
      rw [List.filterMap_cons, List.filterMap_cons, List.filterMap_cons, List.filterMap_cons]
      rw [b64CharVal_b64Char _ (by omega), b64CharVal_b64Char _ (by omega)]
      rfl
  | case4 => rfl

theorem b64Groups_vals : ∀ (bs : List Nat), ByteList bs →
    b64GroupsToBytes (b64ValsOfBytes bs) = bs := by
  intro bs h
  induction bs using b64ValsOfBytes.induct with
  | case1 b1 b2 b3 rest ih =>
      have hb1 : b1 < 256 := h b1 (by simp)
      have hb2 : b2 < 256 := h b2 (by simp)
      have hb3 : b3 < 256 := h b3 (by simp)
      rw [b64ValsOfBytes, b64GroupsToBytes, ih (fun x hx => h x (by simp [hx]))]
      have e1 : b1 / 4 * 4 + ((b1 % 4) * 16 + b2 / 16) / 16 = b1 := by omega
      have e2 : ((b1 % 4) * 16 + b2 / 16) % 16 * 16 + ((b2 % 16) * 4 + b3 / 64) / 4 = b2 := by
        omega
      have e3 : ((b2 % 16) * 4 + b3 / 64) % 4 * 64 + b3 % 64 = b3 := by omega
      rw [e1, e2, e3]
  | case2 b1 b2 =>
      have hb1 : b1 < 256 := h b1 (by simp)
      have hb2 : b2 < 256 := h b2 (by simp)
      rw [b64ValsOfBytes, b64GroupsToBytes]
      have e1 : b1 / 4 * 4 + ((b1 % 4) * 16 + b2 / 16) / 16 = b1 := by omega
      have e2 : ((b1 % 4) * 16 + b2 / 16) % 16 * 16 + (b2 % 16) * 4 / 4 = b2 := by omega
      rw [e1, e2]
  | case3 b1 =>
      have hb1 : b1 < 256 := h b1 (by simp)
      rw [b64ValsOfBytes, b64GroupsToBytes]
      have e1 : b1 / 4 * 4 + (b1 % 4) * 16 / 16 = b1 := by omega
      rw [e1]
  | case4 => rfl

theorem bufferFromBase64_toBase64 (bs : List Nat) (h : ByteList bs) :
    bufferFromBase64 (bufferToBase64 bs) = bs := by
  rw [bufferToBase64, bufferFromBase64]
  show b64GroupsToBytes ((b64EncodeChunks bs).filterMap b64CharVal) = bs
  rw [b64Vals_encode bs h, b64Groups_vals bs h]

theorem b64EncodeChunks_append : ∀ (front tl : List Nat), front.length % 3 = 0 →
    b64EncodeChunks (front ++ tl) = b64EncodeChunks front ++ b64EncodeChunks tl := by
  intro front tl h
  induction front using b64EncodeChunks.induct with
  | case1 b1 b2 b3 rest ih =>
      simp only [List.cons_append]
      rw [b64EncodeChunks]
      rw [show b64EncodeChunks (b1 :: b2 :: b3 :: rest) = b64Char (b1 / 4) ::
        b64Char ((b1 % 4) * 16 + b2 / 16) :: b64Char ((b2 % 16) * 4 + b3 / 64) ::
        b64Char (b3 % 64) :: b64EncodeChunks rest from rfl]
      rw [ih (by simp only [List.length_append, List.length_cons] at h ⊢; omega)]
      rfl
  | case2 b1 b2 => simp at h
  | case3 b1 => simp at h
  | case4 => rfl

theorem b64ValsOfBytes_append : ∀ (front tl : List Nat), front.length % 3 = 0 →
    b64ValsOfBytes (front ++ tl) = b64ValsOfBytes front ++ b64ValsOfBytes tl := by
  intro front tl h
  induction front using b64ValsOfBytes.induct with
  | case1 b1 b2 b3 rest ih =>
      simp only [List.cons_append]
      rw [b64ValsOfBytes]
      rw [show b64ValsOfBytes (b1 :: b2 :: b3 :: rest) = b1 / 4 ::
        ((b1 % 4) * 16 + b2 / 16) :: ((b2 % 16) * 4 + b3 / 64) :: b3 % 64 ::
        b64ValsOfBytes rest from rfl]
      rw [ih (by simp only [List.length_append, List.length_cons] at h ⊢; omega)]
      rfl
  | case2 b1 b2 => simp at h
  | case3 b1 => simp at h
  | case4 => rfl

theorem b64ValsOfBytes_length_mod : ∀ (bs : List Nat), bs.length % 3 = 0 →
    (b64ValsOfBytes bs).length % 4 = 0 := by
  intro bs h
  induction bs using b64ValsOfBytes.induct with
  | case1 b1 b2 b3 rest ih =>
      rw [b64ValsOfBytes]
      simp only [List.length_cons]
      have := ih (by simp only [List.length_cons] at h; omega)
      omega
  | case2 b1 b2 => simp at h
  | case3 b1 => simp at h
  | case4 => rfl

theorem b64GroupsToBytes_append : ∀ (v w : List Nat), v.length % 4 = 0 →
    b64GroupsToBytes (v ++ w) = b64GroupsToBytes v ++ b64GroupsToBytes w := by
  intro v w h
  induction v using b64GroupsToBytes.induct with
  | case1 v1 v2 v3 v4 rest ih =>
      simp only [List.cons_append]
      rw [b64GroupsToBytes]
      rw [show b64GroupsToBytes (v1 :: v2 :: v3 :: v4 :: rest) =
        (v1 * 4 + v2 / 16) :: ((v2 % 16) * 16 + v3 / 4) :: ((v3 % 4) * 64 + v4) ::
          b64GroupsToBytes rest from rfl]
      rw [ih (by simp only [List.length_append, List.length_cons] at h ⊢; omega)]
      rfl
  | case2 v1 v2 v3 => simp at h
  | case3 v1 v2 => simp at h
  | case4 vs h1 h2 h3 =>
      rcases vs with _ | ⟨a, _ | ⟨b, _ | ⟨c, _ | ⟨d, more⟩⟩⟩⟩
      · rfl
      · simp at h
      · exact absurd rfl (by intro hh; exact h3 a b hh)
      · exact absurd rfl (by intro hh; exact h2 a b c hh)
      · exact absurd rfl (by intro hh; exact h1 a b c d more hh)

/-! ## UTF-8 codec -/

theorem utf8Aux_ascii (f b : Nat) (rest : List Nat) (h : b < 0x80) :
    utf8DecodeAux (f + 1) (b :: rest) = Char.ofNat b :: utf8DecodeAux f rest := by
  rw [utf8DecodeAux, if_pos h]

theorem utf8Aux_two (f b1 b2 : Nat) (rest : List Nat)
    (h1 : 0xC2 ≤ b1) (h2 : b1 < 0xE0) (hc : isContByte b2) :
    utf8DecodeAux (f + 1) (b1 :: b2 :: rest) =
      Char.ofNat ((b1 - 0xC0) * 64 + (b2 - 0x80)) :: utf8DecodeAux f rest := by
  rw [utf8DecodeAux, if_neg (by omega), if_neg (by omega), if_pos h2,
    if_pos (by exact ⟨by simp, by simpa using hc⟩)]
  simp

theorem utf8Aux_three (f b1 b2 b3 : Nat) (rest : List Nat)
    (h1 : 0xE0 ≤ b1) (h2 : b1 < 0xF0)
    (hv : isContByte b2 ∧ isContByte b3 ∧ (b1 = 0xE0 → 0xA0 ≤ b2) ∧ (b1 = 0xED → b2 < 0xA0)) :
    utf8DecodeAux (f + 1) (b1 :: b2 :: b3 :: rest) =
      Char.ofNat ((b1 - 0xE0) * 4096 + (b2 - 0x80) * 64 + (b3 - 0x80)) ::
        utf8DecodeAux f rest := by
  rw [utf8DecodeAux, if_neg (by omega), if_neg (by omega), if_neg (by omega), if_pos h2,
    if_pos (by
      refine ⟨by simp, by simpa using hv.1, by simpa using hv.2.1, ?_, ?_⟩
      · intro he; simpa using hv.2.2.1 he
      · intro he; simpa using hv.2.2.2 he)]
  simp

theorem utf8Aux_four (f b1 b2 b3 b4 : Nat) (rest : List Nat)
    (h1 : 0xF0 ≤ b1) (h2 : b1 < 0xF5)
    (hv : isContByte b2 ∧ isContByte b3 ∧ isContByte b4 ∧
      (b1 = 0xF0 → 0x90 ≤ b2) ∧ (b1 = 0xF4 → b2 < 0x90)) :
    utf8DecodeAux (f + 1) (b1 :: b2 :: b3 :: b4 :: rest) =
      Char.ofNat ((b1 - 0xF0) * 262144 + (b2 - 0x80) * 4096 + (b3 - 0x80) * 64 + (b4 - 0x80)) ::
        utf8DecodeAux f rest := by
  rw [utf8DecodeAux, if_neg (by omega), if_neg (by omega), if_neg (by omega),
    if_neg (by omega), if_pos h2,
    if_pos (by
      refine ⟨by simp, by simpa using hv.1, by simpa using hv.2.1, by simpa using hv.2.2.1,
        ?_, ?_⟩
      · intro he; simpa using hv.2.2.2.1 he
      · intro he; simpa using hv.2.2.2.2 he)]
  simp

theorem utf8Aux_nil : ∀ f : Nat, utf8DecodeAux f [] = []
  | 0 => rfl
  | _ + 1 => rfl

theorem char_toNat_valid (c : Char) :
    c.toNat < 0xD800 ∨ (0xDFFF < c.toNat ∧ c.toNat < 0x110000) := c.valid

theorem char_toNat_lt (c : Char) : c.toNat < 0x110000 := by
  rcases char_toNat_valid c with h | ⟨_, h⟩ <;> omega

theorem utf8EncodeChar_length_pos (c : Char) : 1 ≤ (utf8EncodeChar c).length := by
  simp only [utf8EncodeChar]
  split
  · simp
  · split
    · simp
    · split <;> simp

theorem utf8EncodeChar_byteList (c : Char) : ByteList (utf8EncodeChar c) := by
  intro x hx
  have hval := char_toNat_lt c
  simp only [utf8EncodeChar] at hx
  split at hx
  · next h =>
      simp only [List.mem_singleton] at hx
      omega
  · split at hx
    · next h1 h2 =>
        simp only [List.mem_cons, List.not_mem_nil, or_false] at hx
        rcases hx with h | h <;> omega
    · split at hx
      · next h1 h2 h3 =>
          simp only [List.mem_cons, List.not_mem_nil, or_false] at hx
          rcases hx with h | h | h <;> omega
      · next h1 h2 h3 =>
          simp only [List.mem_cons, List.not_mem_nil, or_false] at hx
          rcases hx with h | h | h | h <;> omega

theorem utf8EncodeList_byteList : ∀ cs : List Char, ByteList (utf8EncodeList cs)
  | [] => by intro x hx; simp [utf8EncodeList] at hx
  | c :: cs => by
      intro x hx
      simp only [utf8EncodeList, List.mem_append] at hx
      rcases hx with h | h
      · exact utf8EncodeChar_byteList c x h
      · exact utf8EncodeList_byteList cs x h

theorem utf8Encode_byteList (s : String) : ByteList (utf8Encode s) :=
  utf8EncodeList_byteList s.data

theorem utf8Aux_encodeChar (c : Char) (f : Nat) (rest : List Nat) :
    utf8DecodeAux (f + 1) (utf8EncodeChar c ++ rest) = c :: utf8DecodeAux f rest := by
  have hvalid := char_toNat_valid c
  by_cases hv1 : c.toNat < 0x80
  · have he : utf8EncodeChar c = [c.toNat] := by simp [utf8EncodeChar, hv1]
    rw [he, List.cons_append, List.nil_append, utf8Aux_ascii f _ rest hv1, Char.ofNat_toNat]
  · by_cases hv2 : c.toNat < 0x800
    · have he : utf8EncodeChar c = [0xC0 + c.toNat / 64, 0x80 + c.toNat % 64] := by
        simp [utf8EncodeChar, hv1, hv2]
      rw [he, List.cons_append, List.cons_append, List.nil_append,
        utf8Aux_two f _ _ rest (by omega) (by omega) (by constructor <;> omega)]
      have hval : (0xC0 + c.toNat / 64 - 0xC0) * 64 + (0x80 + c.toNat % 64 - 0x80) = c.toNat := by
        omega
      rw [hval, Char.ofNat_toNat]
    · by_cases hv3 : c.toNat < 0x10000
      · have hs : c.toNat < 0xD800 ∨ 0xDFFF < c.toNat := by
          rcases hvalid with h | ⟨h, _⟩ <;> omega
        have he : utf8EncodeChar c =
            [0xE0 + c.toNat / 4096, 0x80 + c.toNat / 64 % 64, 0x80 + c.toNat % 64] := by
          simp [utf8EncodeChar, hv1, hv2, hv3]
        rw [he, List.cons_append, List.cons_append, List.cons_append, List.nil_append,
          utf8Aux_three f _ _ _ rest (by omega) (by omega)
            (by
              refine ⟨⟨by omega, by omega⟩, ⟨by omega, by omega⟩, ?_, ?_⟩
              · intro h; omega
              · intro h; omega)]
        have hval : (0xE0 + c.toNat / 4096 - 0xE0) * 4096 +
            (0x80 + c.toNat / 64 % 64 - 0x80) * 64 + (0x80 + c.toNat % 64 - 0x80) = c.toNat := by
          omega
        rw [hval, Char.ofNat_toNat]
      · have hv4 : c.toNat < 0x110000 := char_toNat_lt c
        have he : utf8EncodeChar c =
            [0xF0 + c.toNat / 262144, 0x80 + c.toNat / 4096 % 64,
             0x80 + c.toNat / 64 % 64, 0x80 + c.toNat % 64] := by
          simp [utf8EncodeChar, hv1, hv2, hv3]
        rw [he, List.cons_append, List.cons_append, List.cons_append, List.cons_append,
          List.nil_append,
          utf8Aux_four f _ _ _ _ rest (by omega) (by omega)
            (by
              refine ⟨⟨by omega, by omega⟩, ⟨by omega, by omega⟩, ⟨by omega, by omega⟩, ?_, ?_⟩
              · intro h; omega
              · intro h; omega)]
        have hval : (0xF0 + c.toNat / 262144 - 0xF0) * 262144 +
            (0x80 + c.toNat / 4096 % 64 - 0x80) * 4096 +
            (0x80 + c.toNat / 64 % 64 - 0x80) * 64 + (0x80 + c.toNat % 64 - 0x80) = c.toNat := by
          omega
        rw [hval, Char.ofNat_toNat]

theorem utf8Aux_encodeList : ∀ (cs : List Char) (f : Nat),
    (utf8EncodeList cs).length ≤ f → utf8DecodeAux f (utf8EncodeList cs) = cs
  | [], f, _ => by rw [utf8EncodeList]; exact utf8Aux_nil f
  | c :: cs, f, hf => by
      have hlen : 1 + (utf8EncodeList cs).length ≤ f := by
        have h1 := utf8EncodeChar_length_pos c
        simp only [utf8EncodeList, List.length_append] at hf
        omega
      obtain ⟨g, rfl⟩ : ∃ g, f = g + 1 := ⟨f - 1, by omega⟩
      rw [utf8EncodeList, utf8Aux_encodeChar c g (utf8EncodeList cs),
        utf8Aux_encodeList cs g (by omega)]

theorem utf8DecodeList_encodeList (cs : List Char) :
    utf8DecodeList (utf8EncodeList cs) = cs :=
  utf8Aux_encodeList cs _ le_rfl

theorem utf8DecodeStr_encode (s : String) : utf8DecodeStr (utf8Encode s) = s := by
  rw [utf8DecodeStr, utf8Encode, utf8DecodeList_encodeList]

/-! ## Behaviour of decrypt on well-formed blobs -/

theorem blob_byteList (iv ct tag : List Nat) (hivB : ByteList iv) (hctB : ByteList ct)
    (htagB : ByteList tag) : ByteList (iv ++ ct ++ tag) := by
  intro x hx
  simp only [List.mem_append] at hx
  rcases hx with (h | h) | h
  · exact hivB x h
  · exact hctB x h
  · exact htagB x h

theorem blob_take16 (iv ct tag : List Nat) (hiv : iv.length = 16) :
    (iv ++ ct ++ tag).take 16 = iv := by
  rw [List.append_assoc, ← hiv, List.take_left]

theorem blob_dropTag (iv ct tag : List Nat) (hiv : iv.length = 16) (htag : tag.length = 16) :
    (iv ++ ct ++ tag).drop ((iv ++ ct ++ tag).length - 16) = tag := by
  have h : (iv ++ ct ++ tag).length - 16 = (iv ++ ct).length := by
    simp [hiv, htag]; omega
  rw [h, List.drop_left]

theorem blob_mid (iv ct tag : List Nat) (hiv : iv.length = 16) (htag : tag.length = 16) :
    ((iv ++ ct ++ tag).take ((iv ++ ct ++ tag).length - 16)).drop 16 = ct := by
  have h : (iv ++ ct ++ tag).length - 16 = (iv ++ ct).length := by
    simp [hiv, htag]; omega
  rw [h, List.take_left, ← hiv, List.drop_left]

theorem decrypt_wellformed (devKey : List Nat) (env : Option String) (iv ct : List Nat)
    (hkey : (getEncryptionKey devKey env).length = 32)
    (hkeyB : ByteList (getEncryptionKey devKey env))
    (hiv : iv.length = 16) (hivB : ByteList iv) (hctB : ByteList ct) :
    decryptSensitiveData devKey env
        (bufferToBase64 (iv ++ ct ++ gcmTag (getEncryptionKey devKey env) iv ct)) =
      .ok (utf8DecodeStr (gcmCtr (getEncryptionKey devKey env) iv ct)) := by
  have htagL := gcmTag_length (getEncryptionKey devKey env) iv ct hkey hkeyB
  have htagB := gcmTag_byteList (getEncryptionKey devKey env) iv ct hkey hkeyB
  have hcomb := bufferFromBase64_toBase64 _ (blob_byteList iv ct _ hivB hctB htagB)
  rw [decryptSensitiveData]
  rw [hcomb, blob_take16 iv ct _ hiv, blob_dropTag iv ct _ hiv htagL,
    blob_mid iv ct _ hiv htagL]
  rw [if_neg (by omega), if_neg (by omega), if_neg (by rw [htagL]; simp [validAuthTagLength]),
    if_neg (by simp)]

theorem encrypt_eq (devKey : List Nat) (env : Option String) (iv : List Nat) (s : String)
    (hkey : (getEncryptionKey devKey env).length = 32) (hiv : iv.length = 16) :
    encryptSensitiveData devKey env iv s =
      .ok (bufferToBase64 (iv ++ gcmCtr (getEncryptionKey devKey env) iv (utf8Encode s) ++
        gcmTag (getEncryptionKey devKey env) iv
          (gcmCtr (getEncryptionKey devKey env) iv (utf8Encode s)))) := by
  have hctB : ByteList (gcmCtr (getEncryptionKey devKey env) iv (utf8Encode s)) :=
    gcmCtr_byteList _ _ _ (utf8Encode_byteList s)
  rw [encryptSensitiveData]
  rw [if_neg (by omega), if_neg (by omega)]
  simp only [hexToBytes_bytesToHex _ hctB]

/-! ## Claim C1 — encrypt/decrypt round-trip -/

/-- C1: for every string s (including the empty string and strings with
non-ASCII characters), when the same encryption key is resolved for both
calls, decryptSensitiveData (encryptSensitiveData s) returns exactly s:
the ciphertext bytes invert byte-for-byte under the shared CTR keystream
and the UTF-8 bytes decode back to s.  The hypotheses state what the
source guarantees at the call sites: the resolved key is 32 bytes of key
material and the nonce is the 16 random bytes of crypto.randomBytes. -/
theorem spec_C1_roundtrip (devKey : List Nat) (env : Option String) (iv : List Nat) (s : String)
    (hkey : (getEncryptionKey devKey env).length = 32)
    (hkeyB : ByteList (getEncryptionKey devKey env))
    (hiv : iv.length = 16) (hivB : ByteList iv) :
    Except.bind (encryptSensitiveData devKey env iv s) (decryptSensitiveData devKey env) =
      .ok s := by
  rw [encrypt_eq devKey env iv s hkey hiv]
  show decryptSensitiveData devKey env _ = .ok s
  rw [decrypt_wellformed devKey env iv _ hkey hkeyB hiv hivB
    (gcmCtr_byteList _ _ _ (utf8Encode_byteList s))]
  rw [gcmCtr_involution, utf8DecodeStr_encode]

theorem spec_C1_roundtrip_witness :
    (getEncryptionKey [] (some testKeyB64)).length = 32 ∧
      ByteList (getEncryptionKey [] (some testKeyB64)) ∧
      testIV.length = 16 ∧ ByteList testIV ∧
      Except.bind (encryptSensitiveData [] (some testKeyB64) testIV "1")
        (decryptSensitiveData [] (some testKeyB64)) = .ok "1" :=
  ⟨by decide, by decide, by decide, by decide,
    spec_C1_roundtrip [] (some testKeyB64) testIV "1" (by decide) (by decide)
      (by decide) (by decide)⟩

/-! ## Claim C6 — blob length -/

/-- C6: base64-decoding the output of encryptSensitiveData always yields
exactly 16 + len(utf8(s)) + 16 bytes: a 16-byte nonce, a ciphertext of
the byte length of the UTF-8 encoding of s, and a 16-byte tag. -/
theorem spec_C6_blob_length (devKey : List Nat) (env : Option String) (iv : List Nat) (s : String)
    (hkey : (getEncryptionKey devKey env).length = 32)
    (hkeyB : ByteList (getEncryptionKey devKey env))
    (hiv : iv.length = 16) (hivB : ByteList iv) :
    Except.map (fun blob => (bufferFromBase64 blob).length)
        (encryptSensitiveData devKey env iv s) =
      .ok (16 + (utf8Encode s).length + 16) := by
  rw [encrypt_eq devKey env iv s hkey hiv]
  have hctB : ByteList (gcmCtr (getEncryptionKey devKey env) iv (utf8Encode s)) :=
    gcmCtr_byteList _ _ _ (utf8Encode_byteList s)
  have htagB := gcmTag_byteList (getEncryptionKey devKey env) iv
    (gcmCtr (getEncryptionKey devKey env) iv (utf8Encode s)) hkey hkeyB
  show Except.ok ((bufferFromBase64 (bufferToBase64 _)).length) = _
  rw [bufferFromBase64_toBase64 _ (blob_byteList _ _ _ hivB hctB htagB)]
  simp [hiv, gcmCtr_length, gcmTag_length _ _ _ hkey hkeyB]
  omega

theorem spec_C6_blob_length_witness :
    (getEncryptionKey [] (some testKeyB64)).length = 32 ∧
      ByteList (getEncryptionKey [] (some testKeyB64)) ∧
      testIV.length = 16 ∧ ByteList testIV ∧
      Except.map (fun blob => (bufferFromBase64 blob).length)
        (encryptSensitiveData [] (some testKeyB64) testIV "1") = .ok (16 + 1 + 16) :=
  ⟨by decide, by decide, by decide, by decide, by
    have h := spec_C6_blob_length [] (some testKeyB64) testIV "1" (by decide) (by decide)
      (by decide) (by decide)
    simpa using h⟩

/-! ## Digest shape: SHA-256 output is 32 bytes, hex is 64 digits -/

theorem foldl_length_preserve {α : Type} (f : List Nat → α → List Nat)
    (hf : ∀ st t, (f st t).length = st.length) :
    ∀ (l : List α) (st : List Nat), (l.foldl f st).length = st.length
  | [], _ => rfl
  | t :: l, st => by rw [List.foldl_cons, foldl_length_preserve f hf l (f st t), hf]

theorem sha256Round_length (wfull st : List Nat) (t : Nat) :
    (sha256Round wfull st t).length = st.length := by
  rcases st with _ | ⟨a, _ | ⟨b, _ | ⟨c, _ | ⟨d, _ | ⟨e, _ | ⟨f2, _ | ⟨g, _ | ⟨h2, _ | ⟨x, r⟩⟩⟩⟩⟩⟩⟩⟩⟩ <;>
    rfl

theorem sha256Compress_length (hs block : List Nat) :
    (sha256Compress hs block).length = hs.length := by
  rw [sha256Compress, List.length_zipWith,
    foldl_length_preserve _ (fun st t => sha256Round_length _ st t) (List.range 64) hs]
  exact Nat.min_self _

theorem digestBytes_length : ∀ (l : List Nat),
    (l.foldr (fun w acc => natToBytesBE 4 w ++ acc) []).length = 4 * l.length
  | [] => rfl
  | w :: l => by
      rw [List.foldr_cons, List.length_append, natToBytesBE_length, digestBytes_length l,
        List.length_cons]
      omega

theorem digestBytes_byteList : ∀ (l : List Nat),
    ByteList (l.foldr (fun w acc => natToBytesBE 4 w ++ acc) [])
  | [] => by intro x hx; simp at hx
  | w :: l => by
      intro x hx
      rw [List.foldr_cons] at hx
      rcases List.mem_append.1 hx with h | h
      · exact natToBytesBE_byteList _ _ x h
      · exact digestBytes_byteList l x h

theorem sha256_length (msg : List Nat) : (sha256 msg).length = 32 := by
  rw [sha256, digestBytes_length,
    foldl_length_preserve sha256Compress sha256Compress_length]
  rfl

theorem sha256_byteList (msg : List Nat) : ByteList (sha256 msg) := by
  rw [sha256]
  exact digestBytes_byteList _

theorem hmacSha256_length (key msg : List Nat) : (hmacSha256 key msg).length = 32 := by
  rw [hmacSha256]
  exact sha256_length _

theorem hmacSha256_byteList (key msg : List Nat) : ByteList (hmacSha256 key msg) := by
  rw [hmacSha256]
  exact sha256_byteList _

theorem bytesToHexChars_length : ∀ (bs : List Nat), (bytesToHexChars bs).length = 2 * bs.length
  | [] => rfl
  | b :: bs => by
      rw [bytesToHexChars, List.length_cons, List.length_cons, bytesToHexChars_length bs,
        List.length_cons]
      omega

theorem bytesToHexChars_all_hex : ∀ (bs : List Nat), ByteList bs →
    (bytesToHexChars bs).all (fun c => (hexCharVal c).isSome) = true
  | [], _ => rfl
  | b :: bs, h => by
      have hb : b < 256 := h b (List.mem_cons_self _ _)
      rw [bytesToHexChars, List.all_cons, List.all_cons,
        bytesToHexChars_all_hex bs (fun x hx => h x (List.mem_cons_of_mem _ hx))]
      rw [hexCharVal_hexDigitChar _ (by omega), hexCharVal_hexDigitChar _ (by omega)]
      rfl

/-! ## Claim C4 — lookup digest determinism and shape -/

/-- C4: under a fixed configured lookup key, ssnLookupHash is a pure
function of (value, key): every call returns the same hex digest, a
64-character string of hex digits (the hex encoding of the 32-byte
HMAC-SHA256 output).  There is no state anywhere in the definition. -/
theorem spec_C4_digest_deterministic (key s : String) :
    ssnLookupHash key s = ssnLookupHash key s ∧
    (ssnLookupHash key s).length = 64 ∧
    (ssnLookupHash key s).data.all (fun c => (hexCharVal c).isSome) = true := by
  refine ⟨rfl, ?_, ?_⟩
  · show (bytesToHex (hmacSha256 (utf8Encode key) (utf8Encode s))).length = 64
    rw [bytesToHex]
    show (bytesToHexChars _).length = 64
    rw [bytesToHexChars_length, hmacSha256_length]
  · show (bytesToHexChars (hmacSha256 (utf8Encode key) (utf8Encode s))).all _ = true
    exact bytesToHexChars_all_hex _ (hmacSha256_byteList _ _)

/-! ## Claim C5 — missing lookup key fails fast, no fallback -/

/-- C5: with SSN_HMAC_KEY unset (or empty, which is falsy) the lookup
module throws at load, so no digest is ever produced; when a key is
configured the digest is computed under exactly that key — there is no
default-key path. -/
theorem spec_C5_missing_lookup_key (s : String) :
    lookupDigestWithEnv none s = .error .missingHmacKey ∧
    lookupDigestWithEnv (some "") s = .error .missingHmacKey ∧
    (∀ k : String, k ≠ "" → lookupDigestWithEnv (some k) s = .ok (ssnLookupHash k s)) := by
  refine ⟨rfl, rfl, ?_⟩
  intro k hk
  simp [lookupDigestWithEnv, resolveHmacKey, hk, Except.map]

theorem spec_C5_missing_lookup_key_witness :
    lookupDigestWithEnv none "123456789" = .error .missingHmacKey ∧
      (("key" : String) ≠ "" ∧ lookupDigestWithEnv (some "key") "123456789" =
        .ok (ssnLookupHash "key" "123456789")) :=
  ⟨(spec_C5_missing_lookup_key "123456789").1,
   by decide,
   (spec_C5_missing_lookup_key "123456789").2.2 "key" (by decide)⟩

/-! ## Claim C9 — display fragment -/

/-- C9: ssnLast4 strips every non-digit character and returns the last 4
remaining digits — fewer if fewer exist, without error; in particular
ssnLast4 "123-45-6789" = "6789". -/
theorem spec_C9_last4 (s : String) :
    (ssnLast4 s).data.all Char.isDigit = true ∧
    (ssnLast4 s).length = min 4 (s.data.filter Char.isDigit).length ∧
    List.IsSuffix (ssnLast4 s).data (s.data.filter Char.isDigit) ∧
    ssnLast4 "123-45-6789" = "6789" := by
  refine ⟨?_, ?_, ?_, by decide⟩
  · rw [List.all_eq_true]
    intro c hc
    have hmem : c ∈ s.data.filter Char.isDigit := by
      have hsub := List.drop_subset
        ((s.data.filter Char.isDigit).length - 4) (s.data.filter Char.isDigit)
      exact hsub hc
    exact (List.mem_filter.1 hmem).2
  · show (String.mk _).length = _
    simp [String.length, ssnLast4]
    omega
  · exact List.drop_suffix _ _

/-! ## Claim C8 — migration scheme detection -/

/-- C8: isPlaintextSSN classifies a stored value by attempting decryption
first: success means already-encrypted (false, not migrated); failure
plus the raw ^\d{9}$ pattern means plaintext (true); failure without the
pattern is reported through console.warn and not migrated — and a row
classified false is left unchanged by the migration. -/
theorem spec_C8_migration_detection (devKey : List Nat) (env : Option String) (v : String) :
    ((decryptSensitiveData devKey env v).isOk = true →
      isPlaintextSSN devKey env (some v) = false) ∧
    ((decryptSensitiveData devKey env v).isOk = false → isNineDigitSSN v = true →
      isPlaintextSSN devKey env (some v) = true) ∧
    ((decryptSensitiveData devKey env v).isOk = false → isNineDigitSSN v = false →
      isPlaintextSSN devKey env (some v) = false ∧
        migrationWarns devKey env (some v) = true) ∧
    (∀ (u : UserRow) (iv : List Nat), u.ssn = some v →
      isPlaintextSSN devKey env (some v) = false → migrateUser devKey env iv u = .ok u) := by
  refine ⟨?_, ?_, ?_, ?_⟩
  · intro h
    rcases hd : decryptSensitiveData devKey env v with e | p
    · rw [hd] at h; simp [Except.isOk, Except.toBool] at h
    · simp [isPlaintextSSN, hd]
  · intro h hnine
    rcases hd : decryptSensitiveData devKey env v with e | p
    · simp [isPlaintextSSN, hd, hnine]
    · rw [hd] at h; simp [Except.isOk, Except.toBool] at h
  · intro h hnine
    rcases hd : decryptSensitiveData devKey env v with e | p
    · constructor
      · simp [isPlaintextSSN, hd, hnine]
      · simp [migrationWarns, hd, hnine]
    · rw [hd] at h; simp [Except.isOk, Except.toBool] at h
  · intro u iv hu hfalse
    rw [migrateUser, hu]
    simp [hfalse]

theorem spec_C8_migration_detection_witness :
    (decryptSensitiveData [] (some testKeyB64) "123456789").isOk = false ∧
    isNineDigitSSN "123456789" = true ∧
    isPlaintextSSN [] (some testKeyB64) (some "123456789") = true :=
  ⟨by decide, by decide,
   (spec_C8_migration_detection [] (some testKeyB64) "123456789").2.1 (by decide) (by decide)⟩

/-! ## Claim C10 — migration idempotence -/

/-- C10: a row whose ssn column already holds a blob produced by
encryptSensitiveData under the currently resolved key decrypts
successfully, is therefore classified as not-plaintext, and a second run
of the migration leaves the row untouched. -/
theorem spec_C10_idempotent (devKey : List Nat) (env : Option String) (iv iv2 : List Nat)
    (p : String) (u : UserRow) (blob : String)
    (hkey : (getEncryptionKey devKey env).length = 32)
    (hkeyB : ByteList (getEncryptionKey devKey env))
    (hiv : iv.length = 16) (hivB : ByteList iv)
    (hb : encryptSensitiveData devKey env iv p = .ok blob)
    (hu : u.ssn = some blob) :
    decryptSensitiveData devKey env blob = .ok p ∧
    isPlaintextSSN devKey env (some blob) = false ∧
    migrateUser devKey env iv2 u = .ok u := by
  have hdec : decryptSensitiveData devKey env blob = .ok p := by
    have henc := encrypt_eq devKey env iv p hkey hiv
    rw [hb] at henc
    have hblob := Except.ok.inj henc
    rw [hblob, decrypt_wellformed devKey env iv _ hkey hkeyB hiv hivB
      (gcmCtr_byteList _ _ _ (utf8Encode_byteList p)),
      gcmCtr_involution, utf8DecodeStr_encode]
  have hfalse : isPlaintextSSN devKey env (some blob) = false := by
    simp [isPlaintextSSN, hdec]
  refine ⟨hdec, hfalse, ?_⟩
  rw [migrateUser, hu]
  simp [hfalse]

theorem spec_C10_idempotent_witness :
    encryptSensitiveData [] (some testKeyB64) testIV "1" = .ok wBlob ∧
    isPlaintextSSN [] (some testKeyB64) (some wBlob) = false ∧
    migrateUser [] (some testKeyB64) testIV
      { id := 1, email := "a@b.c", first_name := "Jo", last_name := "Doe", ssn := some wBlob } =
      .ok { id := 1, email := "a@b.c", first_name := "Jo", last_name := "Doe",
            ssn := some wBlob } :=
  ⟨by decide,
   (spec_C10_idempotent [] (some testKeyB64) testIV testIV "1"
      { id := 1, email := "a@b.c", first_name := "Jo", last_name := "Doe", ssn := some wBlob }
      wBlob (by decide) (by decide) (by decide) (by decide) (by decide) rfl).2.1,
   (spec_C10_idempotent [] (some testKeyB64) testIV testIV "1"
      { id := 1, email := "a@b.c", first_name := "Jo", last_name := "Doe", ssn := some wBlob }
      wBlob (by decide) (by decide) (by decide) (by decide) (by decide) rfl).2.2⟩

/-! ## Claim C7 — encryption-key validation (corrected) -/

/-- C3 counterexample: "not-base64!!" is not valid base64, yet Node's
lenient decoder silently strips the characters it does not accept and
decodes 7 bytes — no decode error of any kind exists in the code; the
decryption then fails at setAuthTag with the invalid-tag-length error,
not with a DecodeError. -/
theorem spec_C3_counterexample :
    (bufferFromBase64 "not-base64!!").length = 7 ∧
    decryptSensitiveData [] (some testKeyB64) "not-base64!!" =
      .error .invalidAuthTagLength := by decide

/-- C3 amended: the three malformed inputs of the claim are all rejected,
but not with distinguished DecodeError/MalformedBlobError kinds and with
no explicit length check: invalid base64 is silently stripped and the
7 decoded bytes of "not-base64!!" fail at setAuthTag (invalid tag
length), base64_of("short") (5 decoded bytes) likewise, and "" (0
decoded bytes) fails at createDecipheriv with the invalid-IV error. -/
theorem spec_C3_malformed_amended (k : String) (hk : k ≠ "")
    (hlen : (bufferFromBase64 k).length = 32) :
    decryptSensitiveData [] (some k) "not-base64!!" = .error .invalidAuthTagLength ∧
    decryptSensitiveData [] (some k) (bufferToBase64 (utf8Encode "short")) =
      .error .invalidAuthTagLength ∧
    decryptSensitiveData [] (some k) "" = .error .invalidIV := by
  have hkey : getEncryptionKey [] (some k) = bufferFromBase64 k := by
    simp [getEncryptionKey, hk]
  have hc1 : bufferFromBase64 "not-base64!!" = [158, 139, 126, 109, 171, 30, 235] := by decide
  have hc2 : bufferFromBase64 (bufferToBase64 (utf8Encode "short")) =
      [115, 104, 111, 114, 116] := by decide
  have hc3 : bufferFromBase64 "" = [] := by decide
  refine ⟨?_, ?_, ?_⟩
  · rw [decryptSensitiveData, hkey, hc1, if_neg (by decide), if_neg (by omega),
      if_pos (by decide)]
  · rw [decryptSensitiveData, hkey, hc2, if_neg (by decide), if_neg (by omega),
      if_pos (by decide)]
  · rw [decryptSensitiveData, hkey, hc3, if_pos (by decide)]

theorem spec_C3_malformed_amended_witness :
    testKeyB64 ≠ "" ∧ (bufferFromBase64 testKeyB64).length = 32 ∧
    decryptSensitiveData [] (some testKeyB64) "not-base64!!" = .error .invalidAuthTagLength ∧
    decryptSensitiveData [] (some testKeyB64) (bufferToBase64 (utf8Encode "short")) =
      .error .invalidAuthTagLength ∧
    decryptSensitiveData [] (some testKeyB64) "" = .error .invalidIV := by
  have h := spec_C3_malformed_amended testKeyB64 (by decide) (by decide)
  exact ⟨by decide, by decide, h.1, h.2.1, h.2.2⟩

/-! ## Claim C2 — tamper detection (corrected) -/

theorem list_split_last3 (l : List Nat) (h : l.length = 16) :
    ∃ t x y z, l = t ++ [x, y, z] ∧ t.length = 13 := by
  have h2 : (l.drop 13).length = 3 := by simp [h]
  obtain ⟨x, y, z, hxyz⟩ := List.length_eq_three.1 h2
  exact ⟨l.take 13, x, y, z, by rw [← hxyz, List.take_append_drop], by simp [h]⟩

theorem decrypt_combined_authFailed (devKey : List Nat) (env : Option String) (t : String)
    (iv ct tag2 : List Nat)
    (hcomb : bufferFromBase64 t = iv ++ ct ++ tag2)
    (hkey : (getEncryptionKey devKey env).length = 32)
    (hiv : iv.length = 16) (htagL : tag2.length = 16)
    (hne : gcmTag (getEncryptionKey devKey env) iv ct ≠ tag2) :
    decryptSensitiveData devKey env t = .error .authFailed := by
  rw [decryptSensitiveData, hcomb, blob_take16 iv ct _ hiv, blob_dropTag iv ct _ hiv htagL,
    blob_mid iv ct _ hiv htagL]
  rw [if_neg (by omega), if_neg (by omega), if_neg (by rw [htagL]; simp [validAuthTagLength]),
    if_pos hne]

/-- C2 counterexample: for s = "" the encrypted blob has 32 decoded bytes,
so its base64 text ends in the padding character; replacing that final
character with the different character given here, which is outside both
base64 alphabets, leaves Node's lenient decode unchanged — decryption
then succeeds and returns "" rather than raising the authentication
error the claim demands. -/
theorem spec_C2_counterexample :
    encryptSensitiveData [] (some testKeyB64) testIV "" = .ok cexBlob ∧
    lastChar cexBlob = '=' ∧
    decryptSensitiveData [] (some testKeyB64) (replaceLastChar cexBlob '!') = .ok "" ∧
    (Except.ok "" : Except CryptoError String) ≠ .error .authFailed := by
  refine ⟨by decide, by decide, by decide, by decide⟩

/-- C2 amended: tampering with the final character is guaranteed to raise
the authentication error only when that character still decodes: if the
blob is unpadded (utf8 plaintext length ≡ 1 mod 3, so the decoded length
is a multiple of 3) and the final character is replaced by a character
that the lenient decoder maps to a different sextet value, the decoded
tag differs from the recomputed tag in its last byte and
decryptSensitiveData fails with the authentication error.  (Replacing
the character with one the decoder skips can leave the blob bytes
unchanged, as the counterexample shows.) -/
theorem spec_C2_tamper_amended (devKey : List Nat) (env : Option String) (iv : List Nat)
    (s : String) (blob : String) (c : Char) (v : Nat)
    (hkey : (getEncryptionKey devKey env).length = 32)
    (hkeyB : ByteList (getEncryptionKey devKey env))
    (hiv : iv.length = 16) (hivB : ByteList iv)
    (hmod : (utf8Encode s).length % 3 = 1)
    (hb : encryptSensitiveData devKey env iv s = .ok blob)
    (hc : b64CharVal c = some v)
    (hne : b64CharVal (lastChar blob) ≠ some v) :
    decryptSensitiveData devKey env (replaceLastChar blob c) = .error .authFailed := by
  have henc := encrypt_eq devKey env iv s hkey hiv
  rw [hb] at henc
  have hblob := Except.ok.inj henc
  have hctB : ByteList (gcmCtr (getEncryptionKey devKey env) iv (utf8Encode s)) :=
    gcmCtr_byteList _ _ _ (utf8Encode_byteList s)
  have hctL : (gcmCtr (getEncryptionKey devKey env) iv (utf8Encode s)).length =
      (utf8Encode s).length := gcmCtr_length _ _ _
  have htagL := gcmTag_length (getEncryptionKey devKey env) iv
    (gcmCtr (getEncryptionKey devKey env) iv (utf8Encode s)) hkey hkeyB
  have htagB := gcmTag_byteList (getEncryptionKey devKey env) iv
    (gcmCtr (getEncryptionKey devKey env) iv (utf8Encode s)) hkey hkeyB
  obtain ⟨t13, x, y, z, heq, ht13⟩ := list_split_last3 _ htagL
  have hxB : x < 256 := htagB x (by rw [heq]; simp)
  have hyB : y < 256 := htagB y (by rw [heq]; simp)
  have hzB : z < 256 := htagB z (by rw [heq]; simp)
  have ht13B : ByteList t13 := by
    intro w hw
    exact htagB w (by rw [heq]; simp [hw])
  have hfrontB : ByteList (iv ++ gcmCtr (getEncryptionKey devKey env) iv (utf8Encode s) ++ t13) := by
    intro w hw
    simp only [List.mem_append] at hw
    rcases hw with (h | h) | h
    · exact hivB w h
    · exact hctB w h
    · exact ht13B w h
  have hfront3 : (iv ++ gcmCtr (getEncryptionKey devKey env) iv (utf8Encode s) ++ t13).length % 3
      = 0 := by
    simp only [List.length_append, hiv, hctL, ht13]
    omega
  have hassoc : iv ++ gcmCtr (getEncryptionKey devKey env) iv (utf8Encode s) ++
      gcmTag (getEncryptionKey devKey env) iv
        (gcmCtr (getEncryptionKey devKey env) iv (utf8Encode s)) =
      (iv ++ gcmCtr (getEncryptionKey devKey env) iv (utf8Encode s) ++ t13) ++ [x, y, z] := by
    rw [heq]
    simp [List.append_assoc]
  have hdata : blob.data =
      b64EncodeChunks (iv ++ gcmCtr (getEncryptionKey devKey env) iv (utf8Encode s) ++ t13) ++
        [b64Char (x / 4), b64Char ((x % 4) * 16 + y / 16), b64Char ((y % 16) * 4 + z / 64),
          b64Char (z % 64)] := by
    rw [hblob]
    show b64EncodeChunks _ = _
    rw [hassoc, b64EncodeChunks_append _ _ hfront3]
    rfl
  have hlastchar : lastChar blob = b64Char (z % 64) := by
    rw [lastChar, hdata]
    rw [show b64EncodeChunks (iv ++ gcmCtr (getEncryptionKey devKey env) iv (utf8Encode s) ++ t13)
        ++ [b64Char (x / 4), b64Char ((x % 4) * 16 + y / 16), b64Char ((y % 16) * 4 + z / 64),
          b64Char (z % 64)] =
      (b64EncodeChunks (iv ++ gcmCtr (getEncryptionKey devKey env) iv (utf8Encode s) ++ t13)
        ++ [b64Char (x / 4), b64Char ((x % 4) * 16 + y / 16),
          b64Char ((y % 16) * 4 + z / 64)]) ++ [b64Char (z % 64)] by simp]
    simp [List.getLastD_concat]
  have hvne : v ≠ z % 64 := by
    intro hcontr
    exact hne (by rw [hlastchar, b64CharVal_b64Char _ (by omega), hcontr])
  have hvlt : v < 64 := b64CharVal_lt c v hc
  have hmodata : (replaceLastChar blob c).data =
      b64EncodeChunks (iv ++ gcmCtr (getEncryptionKey devKey env) iv (utf8Encode s) ++ t13) ++
        [b64Char (x / 4), b64Char ((x % 4) * 16 + y / 16), b64Char ((y % 16) * 4 + z / 64), c] := by
    show blob.data.dropLast ++ [c] = _
    rw [hdata]
    rw [show b64EncodeChunks (iv ++ gcmCtr (getEncryptionKey devKey env) iv (utf8Encode s) ++ t13)
        ++ [b64Char (x / 4), b64Char ((x % 4) * 16 + y / 16), b64Char ((y % 16) * 4 + z / 64),
          b64Char (z % 64)] =
      (b64EncodeChunks (iv ++ gcmCtr (getEncryptionKey devKey env) iv (utf8Encode s) ++ t13)
        ++ [b64Char (x / 4), b64Char ((x % 4) * 16 + y / 16),
          b64Char ((y % 16) * 4 + z / 64)]) ++ [b64Char (z % 64)] by simp]
    rw [List.dropLast_concat]
    simp
  have hdecode : bufferFromBase64 (replaceLastChar blob c) =
      (iv ++ gcmCtr (getEncryptionKey devKey env) iv (utf8Encode s) ++ t13) ++
        [x, y, z / 64 * 64 + v] := by
    rw [bufferFromBase64, hmodata, List.filterMap_append, b64Vals_encode _ hfrontB]
    have hfm : List.filterMap b64CharVal
        [b64Char (x / 4), b64Char ((x % 4) * 16 + y / 16), b64Char ((y % 16) * 4 + z / 64), c] =
        [x / 4, (x % 4) * 16 + y / 16, (y % 16) * 4 + z / 64, v] := by
      rw [List.filterMap_cons, List.filterMap_cons, List.filterMap_cons, List.filterMap_cons,
        b64CharVal_b64Char _ (by omega), b64CharVal_b64Char _ (by omega),
        b64CharVal_b64Char _ (by omega), hc]
      rfl
    have hgr : b64GroupsToBytes [x / 4, (x % 4) * 16 + y / 16, (y % 16) * 4 + z / 64, v] =
        [x, y, z / 64 * 64 + v] := by
      have e1 : x / 4 * 4 + ((x % 4) * 16 + y / 16) / 16 = x := by omega
      have e2 : ((x % 4) * 16 + y / 16) % 16 * 16 + ((y % 16) * 4 + z / 64) / 4 = y := by omega
      have e3 : ((y % 16) * 4 + z / 64) % 4 * 64 + v = z / 64 * 64 + v := by omega
      rw [b64GroupsToBytes, e1, e2, e3]
      rfl
    rw [hfm, b64GroupsToBytes_append _ _ (b64ValsOfBytes_length_mod _ hfront3),
      b64Groups_vals _ hfrontB, hgr]
  have hb2lt : z / 64 * 64 + v < 256 := by omega
  have hb2ne : z / 64 * 64 + v ≠ z := by omega
  refine decrypt_combined_authFailed devKey env _ iv
    (gcmCtr (getEncryptionKey devKey env) iv (utf8Encode s)) (t13 ++ [x, y, z / 64 * 64 + v])
    ?_ hkey hiv ?_ ?_
  · rw [hdecode]
    simp [List.append_assoc]
  · simp [ht13]
  · rw [heq]
    intro hcontr
    have := List.append_cancel_left hcontr
    simp only [List.cons.injEq] at this
    exact hb2ne this.2.2.1.symm

theorem spec_C2_tamper_amended_witness :
    (utf8Encode "1").length % 3 = 1 ∧
    encryptSensitiveData [] (some testKeyB64) testIV "1" = .ok wBlob ∧
    b64CharVal 'A' = some 0 ∧
    b64CharVal (lastChar wBlob) ≠ some 0 ∧
    decryptSensitiveData [] (some testKeyB64) (replaceLastChar wBlob 'A') =
      .error .authFailed := by
  have h := spec_C2_tamper_amended [] (some testKeyB64) testIV "1" wBlob 'A' 0
    (by decide) (by decide) (by decide) (by decide) (by decide) (by decide) (by decide)
    (by decide)
  exact ⟨by decide, by decide, by decide, by decide, h⟩
